import Mathlib

/-!
Shallow embedding of `scripts/get_version.py`, a utility that extracts a
three-component semantic version (major, minor, patch) from `#define` macro
lines of a header file and prints it in one of two formats.

The script's only nontrivial operation is
`re.search(rf"#define\s+{name}\s+(\d+)", text)` followed by `int(...)` on
the captured group.  For this fixed pattern the regex engine's behaviour is
deterministic and simple to state: a match at a given start position exists
iff the text there begins with the literal `#define`, a nonempty whitespace
run, the literal macro name, a nonempty whitespace run, and at least one
digit; since the macro names start with a non-whitespace character and
digits are not whitespace, the greedy `\s+` runs are exactly the maximal
whitespace runs, and the greedy capture `(\d+)` is exactly the maximal digit
run.  `re.search` returns the match at the leftmost start position where a
match exists.  We embed text as `List Char` and model `\s`/`\d` on the ASCII
fragment the header files use.
-/

/-- Python regex `\s` (whitespace class), on the ASCII fragment:
space, tab, newline, carriage return, vertical tab, form feed. -/
def isSpaceCh (c : Char) : Bool :=
  c = ' ' || c = '\t' || c = '\n' || c = '\r' || c = Char.ofNat 11 || c = Char.ofNat 12

/-- Python regex `\d` (decimal digit class), on the ASCII fragment. -/
def isDigitCh (c : Char) : Bool :=
  '0' ≤ c && c ≤ '9'

/-- Numeric value of a decimal digit character. -/
def digitVal (c : Char) : Nat :=
  c.toNat - '0'.toNat

/-- Python `int(...)` on a nonempty string of decimal digits. -/
def parseDigits (ds : List Char) : Nat :=
  ds.foldl (fun a c => 10 * a + digitVal c) 0

/-- The literal `#define` that heads the regex pattern. -/
def defineLit : List Char :=
  ['#', 'd', 'e', 'f', 'i', 'n', 'e']

/-- Match a literal string at the head of the text: returns the remaining
text on success.  Models matching the fixed characters of the pattern. -/
def dropLiteral : List Char → List Char → Option (List Char)
  | [], s => some s
  | _ :: _, [] => none
  | l :: ls, c :: cs => if c = l then dropLiteral ls cs else none

/-- Attempt to match the pattern `#define\s+<name>\s+(\d+)` at the start of
`s`, returning the digit string captured by the group on success.  The
greedy `\s+` runs are the maximal whitespace runs (they must be nonempty),
and the greedy capture `(\d+)` is the maximal digit run (nonempty). -/
def matchAt (name : List Char) (s : List Char) : Option (List Char) :=
  (dropLiteral defineLit s).bind fun s1 =>
    if s1.takeWhile isSpaceCh = [] then none
    else
      (dropLiteral name (s1.dropWhile isSpaceCh)).bind fun s3 =>
        if s3.takeWhile isSpaceCh = [] then none
        else
          if (s3.dropWhile isSpaceCh).takeWhile isDigitCh = [] then none
          else some ((s3.dropWhile isSpaceCh).takeWhile isDigitCh)

/-- Python `re.search` for the pattern `#define\s+<name>\s+(\d+)`: try each
start position from the left, return the captured digit group of the first
position where the pattern matches, or `none` when no position matches. -/
def reSearch (name : List Char) : List Char → Option (List Char)
  | [] => none
  | c :: cs =>
    match matchAt name (c :: cs) with
    | some ds => some ds
    | none => reSearch name cs

/-- The inner closure `get_macro` of `read_version_header`: search the text
for the macro pattern, convert the captured digits with `int`, and raise
`ValueError(f"Missing macro: {name}")` when there is no match. -/
def get_macro (text : List Char) (name : String) : Except String Nat :=
  match reSearch name.toList text with
  | some ds => .ok (parseDigits ds)
  | none => .error ("Missing macro: " ++ name)

/-- `read_version_header`, given the text content of the header file:
extract the three macros in order (major, minor, patch).  The `Except`
monad models exception propagation: the first missing macro aborts. -/
def read_version_header (text : List Char) : Except String (Nat × Nat × Nat) := do
  let major ← get_macro text "XF_VERSION_MAJOR"
  let minor ← get_macro text "XF_VERSION_MINOR"
  let patch ← get_macro text "XF_VERSION_PATCH"
  return (major, minor, patch)

/-- The two values accepted by `--format` (argparse `choices`). -/
inductive Format where
  | plain
  | github
deriving DecidableEq

/-- The f-string `f"{major}.{minor}.{patch}"`. -/
def version_string (major minor patch : Nat) : String :=
  toString major ++ "." ++ toString minor ++ "." ++ toString patch

/-- The body of `main` after argument parsing, as a function from the
header file's readable content (`none` models an unreadable or nonexistent
path, whose read raises an `OSError`) and the parsed format to the pair
(text printed to standard output, process exit status).  An uncaught
exception makes the interpreter exit with status 1 and print only a
traceback to standard error, so those branches produce empty standard
output and status 1; `print` appends a newline to each printed line. -/
def script_main (header : Option (List Char)) (format : Format) : String × Nat :=
  match header with
  | none => ("", 1)
  | some text =>
    match read_version_header text with
    | .error _ => ("", 1)
    | .ok (major, minor, patch) =>
      let version := version_string major minor patch
      match format with
      | .github =>
        ("APP_VERSION=" ++ version ++ "\n" ++ "APP_VERSION_TAG=v" ++ version ++ "\n", 0)
      | .plain => (version ++ "\n", 0)

/-- Argparse validation of `--format`: only the two enumerated choices are
accepted; anything else is rejected. -/
def parseFormat (s : String) : Option Format :=
  if s = "plain" then some Format.plain
  else if s = "github" then some Format.github
  else none

/-- The whole entry point `raise SystemExit(main())`, including the
argparse boundary: an invalid `--format` value makes argparse call
`parser.error`, which prints usage to standard error and exits with
status 2 before the body of `main` runs. -/
def runScript (header : Option (List Char)) (formatArg : String) : String × Nat :=
  match parseFormat formatArg with
  | none => ("", 2)
  | some format => script_main header format

/-- The macro name `XF_VERSION_MAJOR` as a character list. -/
def majName : List Char :=
  ['X', 'F', '_', 'V', 'E', 'R', 'S', 'I', 'O', 'N', '_', 'M', 'A', 'J', 'O', 'R']

/-- The macro name `XF_VERSION_MINOR` as a character list. -/
def minName : List Char :=
  ['X', 'F', '_', 'V', 'E', 'R', 'S', 'I', 'O', 'N', '_', 'M', 'I', 'N', 'O', 'R']

/-- The macro name `XF_VERSION_PATCH` as a character list. -/
def patName : List Char :=
  ['X', 'F', '_', 'V', 'E', 'R', 'S', 'I', 'O', 'N', '_', 'P', 'A', 'T', 'C', 'H']

/-- A canonical macro definition line `#define <name> <digits>`. -/
def defLine (name ds : List Char) : List Char :=
  defineLit ++ ' ' :: (name ++ ' ' :: ds)

/-- Three lines joined by single newlines, as `"\n".join` would produce. -/
def join3 (l1 l2 l3 : List Char) : List Char :=
  l1 ++ '\n' :: (l2 ++ '\n' :: l3)

deriving instance DecidableEq for Except

/-! Helper lemmas about the embedded pattern matcher. -/

theorem dropLiteral_append_self (xs t : List Char) : dropLiteral xs (xs ++ t) = some t := by
  induction xs with
  | nil => rfl
  | cons c cs ih => simp [dropLiteral, ih]

/-- Matching a literal against text that agrees on a common prefix `p` and
then differs fails. -/
theorem dropLiteral_mismatch (p : List Char) (a b : Char) (as bs rest : List Char)
    (hab : b ≠ a) :
    dropLiteral (p ++ a :: as) ((p ++ b :: bs) ++ rest) = none := by
  induction p with
  | nil => simp [dropLiteral, hab]
  | cons c cs ih =>
    have ih' := ih
    simp only [List.append_assoc, List.cons_append] at ih'
    simp [dropLiteral, ih']

theorem space_not_digit (c : Char) (h : isSpaceCh c = true) : isDigitCh c = false := by
  simp only [isSpaceCh, Bool.or_eq_true, decide_eq_true_eq] at h
  rcases h with ((((h | h) | h) | h) | h) | h <;> subst h <;> decide

theorem digit_not_space (c : Char) (h : isDigitCh c = true) : isSpaceCh c = false := by
  cases hs : isSpaceCh c with
  | false => rfl
  | true => rw [space_not_digit c hs] at h; cases h

theorem digit_ne_hash (c : Char) (h : isDigitCh c = true) : c ≠ '#' := by
  intro he
  subst he
  exact absurd h (by decide)

/-- `takeWhile`/`dropWhile` split a maximal run: on `run ++ t` where every
element of `run` satisfies `p` and the head of `t` (if any) does not. -/
theorem takeWhile_run (p : Char → Bool) (t : List Char)
    (ht : ∀ c, t.head? = some c → p c = false) :
    ∀ run : List Char, (∀ c ∈ run, p c = true) →
      (run ++ t).takeWhile p = run ∧ (run ++ t).dropWhile p = t := by
  intro run
  induction run with
  | nil =>
    intro _
    cases t with
    | nil => exact ⟨rfl, rfl⟩
    | cons c cs =>
      have hc := ht c rfl
      constructor
      · simp [List.takeWhile_cons, hc]
      · simp [List.dropWhile_cons, hc]
  | cons c cs ih =>
    intro hrun
    have hc : p c = true := hrun c (List.mem_cons_self c cs)
    have ih' := ih (fun x hx => hrun x (List.mem_cons_of_mem c hx))
    constructor
    · simp [List.takeWhile_cons, hc, ih'.1]
    · simp [List.dropWhile_cons, hc, ih'.2]

/-- The pattern matches at the start of a canonical occurrence
`#define <name> <digits><tail>` and captures exactly the digit run. -/
theorem matchAt_self (n0 : Char) (ns ds tr : List Char)
    (hn0 : isSpaceCh n0 = false)
    (hds : ds ≠ []) (hdig : ∀ c ∈ ds, isDigitCh c = true)
    (htr : ∀ c, tr.head? = some c → isDigitCh c = false) :
    matchAt (n0 :: ns) (defineLit ++ ' ' :: ((n0 :: ns) ++ ' ' :: (ds ++ tr))) = some ds := by
  obtain ⟨d0, ds', rfl⟩ : ∃ d0 ds', ds = d0 :: ds' := by
    cases ds with
    | nil => exact absurd rfl hds
    | cons d0 ds' => exact ⟨d0, ds', rfl⟩
  have hd0 : isDigitCh d0 = true := hdig d0 (List.mem_cons_self d0 ds')
  have hws1 := takeWhile_run isSpaceCh ((n0 :: ns) ++ ' ' :: (d0 :: ds' ++ tr))
    (by intro c hc; simp at hc; subst hc; exact hn0)
    [' '] (by intro c hc; simp at hc; subst hc; decide)
  have hws2 := takeWhile_run isSpaceCh (d0 :: ds' ++ tr)
    (by intro c hc; simp at hc; subst hc; exact digit_not_space d0 hd0)
    [' '] (by intro c hc; simp at hc; subst hc; decide)
  have hdg := takeWhile_run isDigitCh tr htr (d0 :: ds') hdig
  simp only [List.singleton_append, List.nil_append, List.cons_append,
    List.append_assoc] at hws1 hws2 hdg ⊢
  simp only [matchAt, dropLiteral_append_self, Option.some_bind]
  rw [hws1.1, hws1.2]
  simp only [List.cons_ne_nil, if_false, ite_false]
  rw [show (n0 :: (ns ++ ' ' :: d0 :: (ds' ++ tr)))
        = (n0 :: ns) ++ (' ' :: d0 :: (ds' ++ tr)) by simp]
  rw [dropLiteral_append_self, Option.some_bind]
  rw [hws2.1, hws2.2]
  simp only [List.cons_ne_nil, if_false, ite_false]
  rw [hdg.1]
  simp

theorem matchAt_nil (name : List Char) : matchAt name [] = none := rfl

theorem matchAt_not_hash (name : List Char) (c : Char) (cs : List Char) (hc : c ≠ '#') :
    matchAt name (c :: cs) = none := by
  simp [matchAt, defineLit, dropLiteral, hc]

theorem reSearch_cons_none (name : List Char) (c : Char) (cs : List Char)
    (h : matchAt name (c :: cs) = none) :
    reSearch name (c :: cs) = reSearch name cs := by
  simp [reSearch, h]

/-- Scanning skips any leading segment that contains no `#`, since every
match of the pattern starts with `#`. -/
theorem reSearch_append_no_hash (name : List Char) (t : List Char) :
    ∀ s : List Char, (∀ c ∈ s, c ≠ '#') → reSearch name (s ++ t) = reSearch name t := by
  intro s
  induction s with
  | nil => intro _; rfl
  | cons c cs ih =>
    intro hs
    rw [List.cons_append,
      reSearch_cons_none name c (cs ++ t)
        (matchAt_not_hash name c (cs ++ t) (hs c (List.mem_cons_self c cs)))]
    exact ih (fun x hx => hs x (List.mem_cons_of_mem c hx))

/-- The search succeeds on a text that starts with a canonical occurrence
of the macro, capturing its digit run. -/
theorem reSearch_defLine_self (n0 : Char) (ns ds t : List Char)
    (hn0 : isSpaceCh n0 = false)
    (hds : ds ≠ []) (hdig : ∀ c ∈ ds, isDigitCh c = true)
    (ht : ∀ c, t.head? = some c → isDigitCh c = false) :
    reSearch (n0 :: ns) (defLine (n0 :: ns) ds ++ t) = some ds := by
  have hm : matchAt (n0 :: ns) (defineLit ++ ' ' :: ((n0 :: ns) ++ ' ' :: (ds ++ t)))
      = some ds := matchAt_self n0 ns ds t hn0 hds hdig ht
  have hshape : defLine (n0 :: ns) ds ++ t
      = defineLit ++ ' ' :: ((n0 :: ns) ++ ' ' :: (ds ++ t)) := by
    simp [defLine]
  rw [hshape]
  simp only [defineLit, List.cons_append, List.nil_append] at hm ⊢
  simp [reSearch, hm]

/-- Searching for one macro name fails to match at the start of a canonical
occurrence of a different macro name: the two names agree on a common
prefix `p` and then differ. -/
theorem matchAt_defLine_other (p : List Char) (a b : Char) (as bs ds rest : List Char)
    (hab : b ≠ a)
    (hh : ∀ c, (p ++ b :: bs).head? = some c → isSpaceCh c = false) :
    matchAt (p ++ a :: as) (defLine (p ++ b :: bs) ds ++ rest) = none := by
  have hshape : defLine (p ++ b :: bs) ds ++ rest
      = defineLit ++ ' ' :: ((p ++ b :: bs) ++ ' ' :: (ds ++ rest)) := by
    simp [defLine]
  rw [hshape]
  have hws := takeWhile_run isSpaceCh ((p ++ b :: bs) ++ ' ' :: (ds ++ rest))
    (by
      intro c hc
      apply hh
      cases p with
      | nil => simpa using hc
      | cons q qs => simpa using hc)
    [' '] (by intro c hc; simp at hc; subst hc; decide)
  simp only [List.singleton_append] at hws
  simp only [matchAt, dropLiteral_append_self, Option.some_bind]
  rw [hws.1, hws.2]
  simp only [List.cons_ne_nil, if_false, ite_false]
  rw [dropLiteral_mismatch p a b as bs (' ' :: (ds ++ rest)) hab]
  rfl

/-- Scanning a text that begins with a canonical occurrence of a different
macro, followed by a newline, continues in the remainder of the text. -/
theorem reSearch_skip_defLine (nA nB ds t : List Char)
    (h0 : matchAt nA (defLine nB ds ++ '\n' :: t) = none)
    (hB : ∀ c ∈ nB, c ≠ '#') (hds : ∀ c ∈ ds, c ≠ '#') :
    reSearch nA (defLine nB ds ++ '\n' :: t) = reSearch nA t := by
  have hshape : defLine nB ds ++ '\n' :: t
      = '#' :: ((['d', 'e', 'f', 'i', 'n', 'e', ' '] ++ (nB ++ (' ' :: ds ++ ['\n']))) ++ t) := by
    simp [defLine, defineLit]
  rw [hshape] at h0 ⊢
  rw [reSearch_cons_none nA _ _ h0]
  apply reSearch_append_no_hash
  intro c hc
  simp only [List.mem_append, List.mem_cons, List.mem_singleton,
    List.not_mem_nil, or_false] at hc
  rcases hc with (h | h | h | h | h | h | h) | (h | (h | h) | h)
  · subst h; decide
  · subst h; decide
  · subst h; decide
  · subst h; decide
  · subst h; decide
  · subst h; decide
  · subst h; decide
  · exact hB c h
  · subst h; decide
  · exact hds c h
  · subst h; decide

theorem majName_toList : "XF_VERSION_MAJOR".toList = majName := rfl

theorem minName_toList : "XF_VERSION_MINOR".toList = minName := rfl

theorem patName_toList : "XF_VERSION_PATCH".toList = patName := rfl

theorem reSearch_maj_self (ds t : List Char)
    (hds : ds ≠ []) (hdig : ∀ c ∈ ds, isDigitCh c = true)
    (ht : ∀ c, t.head? = some c → isDigitCh c = false) :
    reSearch majName (defLine majName ds ++ t) = some ds :=
  reSearch_defLine_self 'X' ['F', '_', 'V', 'E', 'R', 'S', 'I', 'O', 'N', '_', 'M', 'A', 'J', 'O', 'R']
    ds t (by decide) hds hdig ht

theorem reSearch_min_self (ds t : List Char)
    (hds : ds ≠ []) (hdig : ∀ c ∈ ds, isDigitCh c = true)
    (ht : ∀ c, t.head? = some c → isDigitCh c = false) :
    reSearch minName (defLine minName ds ++ t) = some ds :=
  reSearch_defLine_self 'X' ['F', '_', 'V', 'E', 'R', 'S', 'I', 'O', 'N', '_', 'M', 'I', 'N', 'O', 'R']
    ds t (by decide) hds hdig ht

theorem reSearch_pat_self (ds t : List Char)
    (hds : ds ≠ []) (hdig : ∀ c ∈ ds, isDigitCh c = true)
    (ht : ∀ c, t.head? = some c → isDigitCh c = false) :
    reSearch patName (defLine patName ds ++ t) = some ds :=
  reSearch_defLine_self 'X' ['F', '_', 'V', 'E', 'R', 'S', 'I', 'O', 'N', '_', 'P', 'A', 'T', 'C', 'H']
    ds t (by decide) hds hdig ht

theorem reSearch_maj_skip_min (ds t : List Char) (hdig : ∀ c ∈ ds, isDigitCh c = true) :
    reSearch majName (defLine minName ds ++ '\n' :: t) = reSearch majName t := by
  apply reSearch_skip_defLine
  · exact matchAt_defLine_other ['X', 'F', '_', 'V', 'E', 'R', 'S', 'I', 'O', 'N', '_', 'M']
      'A' 'I' ['J', 'O', 'R'] ['N', 'O', 'R'] ds ('\n' :: t) (by decide)
      (by intro c hc; simp at hc; subst hc; decide)
  · intro c hc he; subst he; exact absurd hc (by decide)
  · intro c hc; exact digit_ne_hash c (hdig c hc)

theorem reSearch_maj_skip_pat (ds t : List Char) (hdig : ∀ c ∈ ds, isDigitCh c = true) :
    reSearch majName (defLine patName ds ++ '\n' :: t) = reSearch majName t := by
  apply reSearch_skip_defLine
  · exact matchAt_defLine_other ['X', 'F', '_', 'V', 'E', 'R', 'S', 'I', 'O', 'N', '_']
      'M' 'P' ['A', 'J', 'O', 'R'] ['A', 'T', 'C', 'H'] ds ('\n' :: t) (by decide)
      (by intro c hc; simp at hc; subst hc; decide)
  · intro c hc he; subst he; exact absurd hc (by decide)
  · intro c hc; exact digit_ne_hash c (hdig c hc)

theorem reSearch_min_skip_maj (ds t : List Char) (hdig : ∀ c ∈ ds, isDigitCh c = true) :
    reSearch minName (defLine majName ds ++ '\n' :: t) = reSearch minName t := by
  apply reSearch_skip_defLine
  · exact matchAt_defLine_other ['X', 'F', '_', 'V', 'E', 'R', 'S', 'I', 'O', 'N', '_', 'M']
      'I' 'A' ['N', 'O', 'R'] ['J', 'O', 'R'] ds ('\n' :: t) (by decide)
      (by intro c hc; simp at hc; subst hc; decide)
  · intro c hc he; subst he; exact absurd hc (by decide)
  · intro c hc; exact digit_ne_hash c (hdig c hc)

theorem reSearch_min_skip_pat (ds t : List Char) (hdig : ∀ c ∈ ds, isDigitCh c = true) :
    reSearch minName (defLine patName ds ++ '\n' :: t) = reSearch minName t := by
  apply reSearch_skip_defLine
  · exact matchAt_defLine_other ['X', 'F', '_', 'V', 'E', 'R', 'S', 'I', 'O', 'N', '_']
      'M' 'P' ['I', 'N', 'O', 'R'] ['A', 'T', 'C', 'H'] ds ('\n' :: t) (by decide)
      (by intro c hc; simp at hc; subst hc; decide)
  · intro c hc he; subst he; exact absurd hc (by decide)
  · intro c hc; exact digit_ne_hash c (hdig c hc)

theorem reSearch_pat_skip_maj (ds t : List Char) (hdig : ∀ c ∈ ds, isDigitCh c = true) :
    reSearch patName (defLine majName ds ++ '\n' :: t) = reSearch patName t := by
  apply reSearch_skip_defLine
  · exact matchAt_defLine_other ['X', 'F', '_', 'V', 'E', 'R', 'S', 'I', 'O', 'N', '_']
      'P' 'M' ['A', 'T', 'C', 'H'] ['A', 'J', 'O', 'R'] ds ('\n' :: t) (by decide)
      (by intro c hc; simp at hc; subst hc; decide)
  · intro c hc he; subst he; exact absurd hc (by decide)
  · intro c hc; exact digit_ne_hash c (hdig c hc)

theorem reSearch_pat_skip_min (ds t : List Char) (hdig : ∀ c ∈ ds, isDigitCh c = true) :
    reSearch patName (defLine minName ds ++ '\n' :: t) = reSearch patName t := by
  apply reSearch_skip_defLine
  · exact matchAt_defLine_other ['X', 'F', '_', 'V', 'E', 'R', 'S', 'I', 'O', 'N', '_']
      'P' 'M' ['A', 'T', 'C', 'H'] ['I', 'N', 'O', 'R'] ds ('\n' :: t) (by decide)
      (by intro c hc; simp at hc; subst hc; decide)
  · intro c hc he; subst he; exact absurd hc (by decide)
  · intro c hc; exact digit_ne_hash c (hdig c hc)

/-- `read_version_header` evaluated through the three searches. -/
theorem rvh_of_searches (text : List Char) (da db dc : List Char)
    (hM : reSearch majName text = some da)
    (hN : reSearch minName text = some db)
    (hP : reSearch patName text = some dc) :
    read_version_header text = .ok (parseDigits da, parseDigits db, parseDigits dc) := by
  simp only [read_version_header, get_macro, majName_toList, minName_toList,
    patName_toList, hM, hN, hP]
  rfl

/-! Claim theorems. -/

/-- C1: for every header file text from which the three macros extract with
non-negative integer values `(a, b, c)`, running the entry point with format
selector `plain` prints exactly the string `a.b.c` followed by a trailing
newline to standard output and returns exit status 0. -/
theorem plain_format_output (text : List Char) (a b c : Nat)
    (h : read_version_header text = .ok (a, b, c)) :
    runScript (some text) "plain"
      = (toString a ++ "." ++ toString b ++ "." ++ toString c ++ "\n", 0) := by
  simp [runScript, parseFormat, script_main, h, version_string]

theorem plain_format_output_witness :
    runScript
        (some ("#define XF_VERSION_MAJOR 1\n#define XF_VERSION_MINOR 2\n#define XF_VERSION_PATCH 3\n".toList))
        "plain"
      = (toString 1 ++ "." ++ toString 2 ++ "." ++ toString 3 ++ "\n", 0) :=
  plain_format_output _ 1 2 3 (by decide)

/-- C2: for every header file text from which the three macros extract with
values `(a, b, c)`, running the entry point with format selector `github`
prints exactly two lines: `APP_VERSION=a.b.c` then `APP_VERSION_TAG=va.b.c`. -/
theorem github_format_output (text : List Char) (a b c : Nat)
    (h : read_version_header text = .ok (a, b, c)) :
    runScript (some text) "github"
      = ("APP_VERSION=" ++ (toString a ++ "." ++ toString b ++ "." ++ toString c) ++ "\n"
          ++ "APP_VERSION_TAG=v" ++ (toString a ++ "." ++ toString b ++ "." ++ toString c)
          ++ "\n", 0) := by
  simp [runScript, parseFormat, script_main, h, version_string, String.append_assoc]

theorem github_format_output_witness :
    runScript
        (some ("#define XF_VERSION_MAJOR 2\n#define XF_VERSION_MINOR 10\n#define XF_VERSION_PATCH 0\n".toList))
        "github"
      = ("APP_VERSION=" ++ (toString 2 ++ "." ++ toString 10 ++ "." ++ toString 0) ++ "\n"
          ++ "APP_VERSION_TAG=v" ++ (toString 2 ++ "." ++ toString 10 ++ "." ++ toString 0)
          ++ "\n", 0) :=
  github_format_output _ 2 10 0 (by decide)

/-- C5: on every failure path of the entry-point body (unreadable or
nonexistent file, or any missing macro), nothing is printed to standard
output: whenever the exit status is nonzero, standard output is empty. -/
theorem failure_no_output (header : Option (List Char)) (format : Format)
    (h : (script_main header format).2 ≠ 0) :
    (script_main header format).1 = "" := by
  cases header with
  | none => rfl
  | some text =>
    cases hr : read_version_header text with
    | error e => simp [script_main, hr]
    | ok v =>
      obtain ⟨a, b, c⟩ := v
      exact absurd (by cases format <;> simp [script_main, hr]) h

theorem failure_no_output_witness : (script_main none Format.plain).1 = "" :=
  failure_no_output none Format.plain (by decide)

/-- C8: any `--format` value other than `plain` and `github` is rejected at
the argparse boundary with exit status 2 (nonzero), producing no standard
output, and the outcome does not depend on the header file at all (the
reader and formatter never run). -/
theorem invalid_format_rejected (s : String) (header header' : Option (List Char))
    (h1 : s ≠ "plain") (h2 : s ≠ "github") :
    runScript header s = ("", 2) ∧ (runScript header s).2 ≠ 0 ∧
      runScript header s = runScript header' s := by
  simp [runScript, parseFormat, h1, h2]

theorem invalid_format_rejected_witness :
    runScript none "json" = ("", 2) ∧ (runScript none "json").2 ≠ 0 ∧
      runScript none "json" = runScript (some ['x']) "json" :=
  invalid_format_rejected "json" none (some ['x']) (by decide) (by decide)

/-- C3: if any one of the three required macros has no matching pattern
anywhere in the file text, `read_version_header` fails with an error whose
message carries the name of a macro that is indeed missing, and the process
never returns exit status 0 on such an input (it exits with status 1). -/
theorem missing_macro_error (text : List Char)
    (h : reSearch majName text = none ∨ reSearch minName text = none ∨
      reSearch patName text = none) :
    ∃ name,
      (name = "XF_VERSION_MAJOR" ∨ name = "XF_VERSION_MINOR" ∨ name = "XF_VERSION_PATCH") ∧
      reSearch name.toList text = none ∧
      read_version_header text = .error ("Missing macro: " ++ name) ∧
      ∀ format, script_main (some text) format = ("", 1) := by
  cases hM : reSearch majName text with
  | none =>
    have herr : read_version_header text = .error ("Missing macro: " ++ "XF_VERSION_MAJOR") := by
      simp only [read_version_header, get_macro, majName_toList, hM]
      rfl
    exact ⟨"XF_VERSION_MAJOR", Or.inl rfl, by rw [majName_toList]; exact hM, herr,
      fun format => by simp [script_main, herr]⟩
  | some dsa =>
    cases hN : reSearch minName text with
    | none =>
      have herr : read_version_header text = .error ("Missing macro: " ++ "XF_VERSION_MINOR") := by
        simp only [read_version_header, get_macro, majName_toList, minName_toList, hM, hN]
        rfl
      exact ⟨"XF_VERSION_MINOR", Or.inr (Or.inl rfl), by rw [minName_toList]; exact hN, herr,
        fun format => by simp [script_main, herr]⟩
    | some dsb =>
      cases hP : reSearch patName text with
      | none =>
        have herr : read_version_header text = .error ("Missing macro: " ++ "XF_VERSION_PATCH") := by
          simp only [read_version_header, get_macro, majName_toList, minName_toList,
            patName_toList, hM, hN, hP]
          rfl
        exact ⟨"XF_VERSION_PATCH", Or.inr (Or.inr rfl), by rw [patName_toList]; exact hP, herr,
          fun format => by simp [script_main, herr]⟩
      | some dsc =>
        rcases h with h | h | h
        · rw [hM] at h; cases h
        · rw [hN] at h; cases h
        · rw [hP] at h; cases h

theorem missing_macro_error_witness :
    ∃ name,
      (name = "XF_VERSION_MAJOR" ∨ name = "XF_VERSION_MINOR" ∨ name = "XF_VERSION_PATCH") ∧
      reSearch name.toList "no macros here".toList = none ∧
      read_version_header "no macros here".toList = .error ("Missing macro: " ++ name) ∧
      ∀ format, script_main (some "no macros here".toList) format = ("", 1) :=
  missing_macro_error "no macros here".toList (Or.inl (by decide))

/-- C6: when the text contains more than one occurrence matching a macro's
pattern, the extracted digits come from the earliest matching position: if
the pattern matches at position `i` and at no earlier position, the search
returns the digits captured at position `i`. -/
theorem first_match_used (name text : List Char) (i : Nat) (ds : List Char)
    (hi : matchAt name (text.drop i) = some ds)
    (hj : ∀ j, j < i → matchAt name (text.drop j) = none) :
    reSearch name text = some ds := by
  induction text generalizing i with
  | nil =>
    rw [List.drop_nil, matchAt_nil] at hi
    cases hi
  | cons c cs ih =>
    cases i with
    | zero =>
      rw [List.drop_zero] at hi
      simp [reSearch, hi]
    | succ j =>
      have h0 : matchAt name (c :: cs) = none := by
        have h00 := hj 0 (Nat.succ_pos j)
        rwa [List.drop_zero] at h00
      rw [reSearch_cons_none name c cs h0]
      apply ih j
      · simpa using hi
      · intro k hk
        have hk1 := hj (k + 1) (Nat.succ_lt_succ hk)
        simpa using hk1

theorem first_match_used_witness :
    reSearch majName "x#define XF_VERSION_MAJOR 1 #define XF_VERSION_MAJOR 2".toList
      = some ['1'] :=
  first_match_used majName _ 1 ['1'] (by decide)
    (by
      intro j hj
      have hj0 : j = 0 := Nat.lt_one_iff.mp hj
      subst hj0
      decide)

/-- C7: macro values are parsed as plain decimal integers, so digit runs
with leading zeros parse to their integer value: textual macro values
`1`, `02`, `3` give plain-format output `1.2.3` and exit status 0. -/
theorem leading_zeros_parse :
    runScript
        (some ("#define XF_VERSION_MAJOR 1\n#define XF_VERSION_MINOR 02\n#define XF_VERSION_PATCH 3\n".toList))
        "plain"
      = ("1.2.3\n", 0) := by
  decide

/-- C9: characters after the digit run are ignored: on an occurrence
`#define XF_VERSION_MAJOR <digits><non-digit tail>` extraction succeeds and
returns the integer value of the maximal leading digit run. -/
theorem trailing_chars_ignored (ds tr : List Char)
    (hds : ds ≠ []) (hdig : ∀ c ∈ ds, isDigitCh c = true)
    (htr : ∀ c, tr.head? = some c → isDigitCh c = false) :
    get_macro (defLine majName ds ++ tr) "XF_VERSION_MAJOR" = .ok (parseDigits ds) := by
  have hs := reSearch_maj_self ds tr hds hdig htr
  simp only [ get_macro, majName_toList, hs]

theorem trailing_chars_ignored_witness :
    get_macro (defLine majName ['1', '2'] ++ ['a', 'b', 'c']) "XF_VERSION_MAJOR" = .ok 12 :=
  trailing_chars_ignored ['1', '2'] ['a', 'b', 'c'] (by decide) (by decide)
    (by intro c hc; simp at hc; subst hc; decide)

/-- C10: macro matching is substring-based and not line-based: a macro is
found even when `#define` does not start a line, and the whitespace between
the name and the digits may be a newline, so a value on the following line
is still extracted. -/
theorem substring_and_multiline_matching :
    get_macro "int x; #define XF_VERSION_MAJOR 7".toList "XF_VERSION_MAJOR" = .ok 7 ∧
    get_macro "#define XF_VERSION_MAJOR\n7".toList "XF_VERSION_MAJOR" = .ok 7 :=
  ⟨by decide, by decide⟩

/-- C4: extraction is order-independent: for a file text consisting of the
three canonical `#define` lines with digit values `da`, `db`, `dc`, every
one of the six orderings of the lines yields the same extracted triple. -/
theorem extraction_order_independent (da db dc : List Char)
    (hda : da ≠ []) (hdiga : ∀ c ∈ da, isDigitCh c = true)
    (hdb : db ≠ []) (hdigb : ∀ c ∈ db, isDigitCh c = true)
    (hdc : dc ≠ []) (hdigc : ∀ c ∈ dc, isDigitCh c = true) :
    (read_version_header (join3 (defLine majName da) (defLine minName db) (defLine patName dc))
        = .ok (parseDigits da, parseDigits db, parseDigits dc)) ∧
    (read_version_header (join3 (defLine majName da) (defLine patName dc) (defLine minName db))
        = .ok (parseDigits da, parseDigits db, parseDigits dc)) ∧
    (read_version_header (join3 (defLine minName db) (defLine majName da) (defLine patName dc))
        = .ok (parseDigits da, parseDigits db, parseDigits dc)) ∧
    (read_version_header (join3 (defLine minName db) (defLine patName dc) (defLine majName da))
        = .ok (parseDigits da, parseDigits db, parseDigits dc)) ∧
    (read_version_header (join3 (defLine patName dc) (defLine majName da) (defLine minName db))
        = .ok (parseDigits da, parseDigits db, parseDigits dc)) ∧
    (read_version_header (join3 (defLine patName dc) (defLine minName db) (defLine majName da))
        = .ok (parseDigits da, parseDigits db, parseDigits dc)) := by
  have htn : ∀ (X : List Char) (c : Char), ('\n' :: X).head? = some c → isDigitCh c = false := by
    intro X c hc
    simp at hc
    subst hc
    decide
  have htnil : ∀ c : Char, ([] : List Char).head? = some c → isDigitCh c = false := by
    intro c hc
    simp at hc
  have selfM : ∀ t, (∀ c, t.head? = some c → isDigitCh c = false) →
      reSearch majName (defLine majName da ++ t) = some da :=
    fun t ht => reSearch_maj_self da t hda hdiga ht
  have selfN : ∀ t, (∀ c, t.head? = some c → isDigitCh c = false) →
      reSearch minName (defLine minName db ++ t) = some db :=
    fun t ht => reSearch_min_self db t hdb hdigb ht
  have selfP : ∀ t, (∀ c, t.head? = some c → isDigitCh c = false) →
      reSearch patName (defLine patName dc ++ t) = some dc :=
    fun t ht => reSearch_pat_self dc t hdc hdigc ht
  have selfM0 : reSearch majName (defLine majName da) = some da := by
    have h := selfM [] htnil
    rwa [List.append_nil] at h
  have selfN0 : reSearch minName (defLine minName db) = some db := by
    have h := selfN [] htnil
    rwa [List.append_nil] at h
  have selfP0 : reSearch patName (defLine patName dc) = some dc := by
    have h := selfP [] htnil
    rwa [List.append_nil] at h
  simp only [join3]
  refine ⟨?_, ?_, ?_, ?_, ?_, ?_⟩
  · apply rvh_of_searches
    · exact selfM _ (htn _)
    · rw [reSearch_min_skip_maj da _ hdiga]
      exact selfN _ (htn _)
    · rw [reSearch_pat_skip_maj da _ hdiga, reSearch_pat_skip_min db _ hdigb]
      exact selfP0
  · apply rvh_of_searches
    · exact selfM _ (htn _)
    · rw [reSearch_min_skip_maj da _ hdiga, reSearch_min_skip_pat dc _ hdigc]
      exact selfN0
    · rw [reSearch_pat_skip_maj da _ hdiga]
      exact selfP _ (htn _)
  · apply rvh_of_searches
    · rw [reSearch_maj_skip_min db _ hdigb]
      exact selfM _ (htn _)
    · exact selfN _ (htn _)
    · rw [reSearch_pat_skip_min db _ hdigb, reSearch_pat_skip_maj da _ hdiga]
      exact selfP0
  · apply rvh_of_searches
    · rw [reSearch_maj_skip_min db _ hdigb, reSearch_maj_skip_pat dc _ hdigc]
      exact selfM0
    · exact selfN _ (htn _)
    · rw [reSearch_pat_skip_min db _ hdigb]
      exact selfP _ (htn _)
  · apply rvh_of_searches
    · rw [reSearch_maj_skip_pat dc _ hdigc]
      exact selfM _ (htn _)
    · rw [reSearch_min_skip_pat dc _ hdigc, reSearch_min_skip_maj da _ hdiga]
      exact selfN0
    · exact selfP _ (htn _)
  · apply rvh_of_searches
    · rw [reSearch_maj_skip_pat dc _ hdigc, reSearch_maj_skip_min db _ hdigb]
      exact selfM0
    · rw [reSearch_min_skip_pat dc _ hdigc]
      exact selfN _ (htn _)
    · exact selfP _ (htn _)

theorem extraction_order_independent_witness :
    (read_version_header (join3 (defLine majName ['2']) (defLine minName ['1', '0']) (defLine patName ['0']))
        = .ok (parseDigits ['2'], parseDigits ['1', '0'], parseDigits ['0'])) ∧
    (read_version_header (join3 (defLine majName ['2']) (defLine patName ['0']) (defLine minName ['1', '0']))
        = .ok (parseDigits ['2'], parseDigits ['1', '0'], parseDigits ['0'])) ∧
    (read_version_header (join3 (defLine minName ['1', '0']) (defLine majName ['2']) (defLine patName ['0']))
        = .ok (parseDigits ['2'], parseDigits ['1', '0'], parseDigits ['0'])) ∧
    (read_version_header (join3 (defLine minName ['1', '0']) (defLine patName ['0']) (defLine majName ['2']))
        = .ok (parseDigits ['2'], parseDigits ['1', '0'], parseDigits ['0'])) ∧
    (read_version_header (join3 (defLine patName ['0']) (defLine majName ['2']) (defLine minName ['1', '0']))
        = .ok (parseDigits ['2'], parseDigits ['1', '0'], parseDigits ['0'])) ∧
    (read_version_header (join3 (defLine patName ['0']) (defLine minName ['1', '0']) (defLine majName ['2']))
        = .ok (parseDigits ['2'], parseDigits ['1', '0'], parseDigits ['0'])) :=
  extraction_order_independent ['2'] ['1', '0'] ['0']
    (by decide) (by decide) (by decide) (by decide) (by decide) (by decide)
